import Mathlib

/-!
Verification of the on-device live display engine of the sms-led-display
repository (src/pi/renderer/main.py): the queue reconciliation algorithm
`rebuild_active_messages`, the feed fetch error handling, the render loop
scheduling (mute priority, played-once notification), and the polling
thread (cadence and shared-state publication).

Machine integers do not occur in the relevant code; timestamps are
modelled as natural numbers, message records as the fields the renderer
reads (`pk`, `message_id`, `body`).
-/

namespace SmsLed

/-- A raw message record as the renderer reads it: the optional backend
keys `pk` and `message_id`, and the display text `body`
(src/pi/renderer/main.py, `get_message_id` and `rebuild_active_messages`). -/
structure Msg where
  pk : Option String
  message_id : Option String
  body : String
deriving DecidableEq, Repr

/-- Python `s.strip()` on the underlying character list: drop whitespace
from both ends. Defined structurally (rather than via `String.trim`, whose
well-founded recursion does not reduce) so that concrete runs evaluate. -/
def pyStrip (s : String) : String :=
  ⟨((s.data.dropWhile Char.isWhitespace).reverse.dropWhile Char.isWhitespace).reverse⟩

/-- Python `a or b` on an optional string against a fallback: an absent or
empty string is falsy and selects the fallback. -/
def pyStrOr (a : Option String) (b : String) : String :=
  match a with
  | some s => if s = "" then b else s
  | none => b

/-- `get_message_id(msg)` (main.py lines 77-84): prefer `pk`, then
`message_id`, then the trimmed body text. -/
def get_message_id (m : Msg) : String :=
  pyStrOr m.pk (pyStrOr m.message_id (pyStrip m.body))

/-- The normalization filter of `rebuild_active_messages` (lines 282-288):
an entry survives when its trimmed body is non-empty and its derived id is
non-empty. -/
def isGoodMsg (m : Msg) : Bool :=
  decide (pyStrip m.body ≠ "") && decide (get_message_id m ≠ "")

/-- The first loop of `rebuild_active_messages` (lines 279-292): walk the
fetched list, drop empty bodies, drop empty ids, deduplicate by id keeping
the first occurrence; `seen` is the `fetched_ids` accumulator. -/
def cleanFetched : List Msg → List String → List Msg
  | [], _ => []
  | m :: ms, seen =>
    if pyStrip m.body = "" then cleanFetched ms seen
    else if get_message_id m = "" then cleanFetched ms seen
    else if get_message_id m ∈ seen then cleanFetched ms seen
    else m :: cleanFetched ms (get_message_id m :: seen)

/-- The `id_to_msg` dict lookup (line 299): a Python dict comprehension
keeps the last binding of a key, so look from the rear. -/
def id_to_msg_lookup (cleaned : List Msg) (oid : String) : Option Msg :=
  cleaned.reverse.find? (fun m => decide (get_message_id m = oid))

/-- The list emitted by the order-preserving loop of
`rebuild_active_messages` (lines 301-305): walk the previous queue, and
for each entry whose id is in the fresh lookup and not yet used, emit the
fresh version and mark the id used. -/
def preserveOut (cleaned : List Msg) : List Msg → List String → List Msg
  | [], _ => []
  | p :: ps, used =>
    match id_to_msg_lookup cleaned (get_message_id p) with
    | some fresh =>
      if get_message_id p ∈ used then preserveOut cleaned ps used
      else fresh :: preserveOut cleaned ps (get_message_id p :: used)
    | none => preserveOut cleaned ps used

/-- The `used_ids` set as it stands after the order-preserving loop of
`rebuild_active_messages` (lines 301-305), threaded into the new-arrivals
loop. -/
def preserveUsed (cleaned : List Msg) : List Msg → List String → List String
  | [], used => used
  | p :: ps, used =>
    match id_to_msg_lookup cleaned (get_message_id p) with
    | some _ =>
      if get_message_id p ∈ used then preserveUsed cleaned ps used
      else preserveUsed cleaned ps (get_message_id p :: used)
    | none => preserveUsed cleaned ps used

/-- The new-arrivals loop of `rebuild_active_messages` (lines 308-312):
append each cleaned entry whose id was not used yet. -/
def appendNew : List Msg → List String → List Msg
  | [], _ => []
  | m :: ms, used =>
    if get_message_id m ∈ used then appendNew ms used
    else m :: appendNew ms (get_message_id m :: used)

/-- `rebuild_active_messages(active_messages, fetched_messages)`
(main.py lines 267-314). -/
def rebuild_active_messages (active_messages fetched_messages : List Msg) : List Msg :=
  let cleaned := cleanFetched fetched_messages []
  preserveOut cleaned active_messages [] ++
    appendNew cleaned (preserveUsed cleaned active_messages [])

/-- Sample message A. -/
def msgA : Msg := ⟨some "a", none, "alpha"⟩

/-- Sample message B. -/
def msgB : Msg := ⟨some "b", none, "bravo"⟩

/-- Sample message C. -/
def msgC : Msg := ⟨some "c", none, "charlie"⟩

/-- Sample message D. -/
def msgD : Msg := ⟨some "d", none, "delta"⟩

/-- Sample message E, used for a duplicate-queue counterexample. -/
def msgE : Msg := ⟨some "e", none, "echo"⟩

/-- Sample message F, used for a duplicate-queue counterexample. -/
def msgF : Msg := ⟨some "f", none, "foxtrot"⟩

/-- The body of the feed response as the renderer reads it: optional
`messages` and `items` lists and an optional `screen_muted` flag
(main.py lines 102-105). -/
structure RespDict where
  messages : Option (List Msg)
  items : Option (List Msg)
  screen_muted : Option Bool
deriving DecidableEq, Repr

/-- Outcome of the HTTP round trip inside `fetch_live_messages`: either a
parsed JSON object, or any raised exception (connection error, timeout,
non-2xx status via `raise_for_status`, JSON decode failure, or a response
that is not an object) carrying its message. -/
inductive FetchOutcome where
  | ok (resp : RespDict)
  | failed (err : String)
deriving DecidableEq, Repr

/-- The snapshot `fetch_live_messages` returns (main.py lines 110-117). -/
structure FeedResult where
  messages : List Msg
  screen_muted : Bool
deriving DecidableEq, Repr

/-- Python `a or b` on an optional list: an absent or empty list is falsy
and selects the fallback. -/
def pyListOr (a : Option (List Msg)) (b : List Msg) : List Msg :=
  match a with
  | some l => if l = [] then b else l
  | none => b

/-- `fetch_live_messages(settings, url)` (main.py lines 91-117) as a total
function of the HTTP outcome: the `except` branch absorbs every raised
error into an empty, unmuted snapshot; on success the message list is
`data.get("messages") or data.get("items") or []` and the mute flag is
`bool(data.get("screen_muted", False))`. -/
def fetch_live_messages : FetchOutcome → FeedResult
  | .failed _ => { messages := [], screen_muted := false }
  | .ok d =>
    { messages := pyListOr d.messages (pyListOr d.items [])
      screen_muted := d.screen_muted.getD false }

/-- The shared polling state read by the render loop: the three keys of
`shared_state` (main.py lines 363-367). Timestamps are naturals. -/
structure Snapshot where
  messages : List Msg
  screen_muted : Bool
  last_update : Nat
deriving DecidableEq, Repr

/-- A single key assignment into `shared_state` (main.py lines 170-172);
the poller publishes one poll result as three of these in sequence. -/
inductive FieldWrite where
  | wmsgs (v : List Msg)
  | wmuted (b : Bool)
  | wupd (t : Nat)
deriving DecidableEq, Repr

/-- Effect of one key assignment on the shared state. -/
def applyWrite (s : Snapshot) : FieldWrite → Snapshot
  | .wmsgs v => { s with messages := v }
  | .wmuted b => { s with screen_muted := b }
  | .wupd t => { s with last_update := t }

/-- The publication step of the poller (main.py lines 170-172): three
successive single-key assignments, in source order. -/
def publishWrites (data : FeedResult) (now : Nat) : List FieldWrite :=
  [.wmsgs data.messages, .wmuted data.screen_muted, .wupd now]

/-- The shared state a reader observes when its read lands after the first
`k` of the publication writes (the render loop reads the three keys in
sequence, main.py lines 403-405). -/
def readAfter (s : Snapshot) (data : FeedResult) (now : Nat) (k : Nat) : Snapshot :=
  ((publishWrites data now).take k).foldl applyWrite s

/-- Timing of the poller loop (main.py lines 163-174): each cycle performs
the fetch (taking the given duration), publishes, then sleeps the poll
interval; given the durations of the first cycles and the start time of
the first, return the fetch start time of each cycle. -/
def pollerStartTimes (pollInterval : Nat) (t0 : Nat) : List Nat → List Nat
  | [] => []
  | d :: ds => t0 :: pollerStartTimes pollInterval (t0 + d + pollInterval) ds

/-- The render loop state threaded through iterations of the `while True`
loop of `run` (main.py lines 394-399 and 342-343): the active queue, the
round-robin cursor, the played cache, the last applied feed timestamp,
and the per-message color assignment. -/
structure LoopState where
  active_messages : List Msg
  active_index : Nat
  played_cache : List String
  last_applied_update : Nat
  message_color_map : List (String × Nat)
  color_index : Nat
deriving DecidableEq, Repr

/-- Observable actions of one render loop iteration: the blank-and-swap of
the muted branch, the ticker-only idle branch, selecting the message at
the cursor, dispatching a played-notification, and scrolling a body. -/
inductive Event where
  | clearSwap
  | idleTicker
  | selected (id : String)
  | markPlayed (id : String)
  | scroll (body : String)
deriving DecidableEq, Repr

/-- The color palette has eight entries (main.py lines 332-341); colors are
tracked by palette index. -/
def colorCycleLength : Nat := 8

/-- The color-map key `msg_id or body` (main.py line 445). -/
def colorKey (msg_id body : String) : String :=
  if msg_id = "" then body else msg_id

/-- The feed-update phase of one render loop iteration (main.py lines
407-418): when the observed `last_update` differs from the last applied
one, rebuild the active queue, reset the cursor to 0 when it is out of
range, and record the timestamp as applied. -/
def applyFeedUpdate (st : LoopState) (snap : Snapshot) : LoopState :=
  if snap.last_update ≠ st.last_applied_update then
    let am := rebuild_active_messages st.active_messages snap.messages
    let ai := if am ≠ [] then (if st.active_index ≥ am.length then 0 else st.active_index)
              else 0
    { st with active_messages := am, active_index := ai,
              last_applied_update := snap.last_update }
  else st

/-- The played-cache update on selection (main.py lines 438-441): a
non-empty id not yet in the cache is added; otherwise the cache is left
alone. -/
def displayCache (cache : List String) (mid : String) : List String :=
  if mid ≠ "" ∧ mid ∉ cache then mid :: cache else cache

/-- The observable actions of the displaying branch (main.py lines
432-458): the message at the cursor is selected; a played-notification is
dispatched exactly when its id is non-empty and not yet cached (lines
438-441); the body is scrolled exactly when non-empty after trimming
(lines 443-452). -/
def displayEvents (cache : List String) (mid body : String) : List Event :=
  Event.selected mid ::
    ((if mid ≠ "" ∧ mid ∉ cache then [Event.markPlayed mid] else []) ++
     (if body ≠ "" then [Event.scroll body] else []))

/-- The display phase of one render loop iteration (main.py lines 425-477):
muted blanks the panel; an empty queue runs the idle ticker; otherwise the
message at the cursor is selected, notified once per id, scrolled when its
trimmed body is non-empty, and the cursor advances modulo the queue
length. -/
def renderPhase (st : LoopState) (snap : Snapshot) : LoopState × List Event :=
  if snap.screen_muted then (st, [Event.clearSwap])
  else if st.active_messages = [] then (st, [Event.idleTicker])
  else
    let msg := st.active_messages.getD st.active_index ⟨none, none, ""⟩
    let mid := get_message_id msg
    let body := pyStrip msg.body
    let key := colorKey mid body
    let fresh_color := body ≠ "" ∧
      (st.message_color_map.find? (fun kv => decide (kv.1 = key))).isNone
    let cmap1 := if fresh_color then
        st.message_color_map ++ [(key, st.color_index % colorCycleLength)]
      else st.message_color_map
    let cidx1 := if fresh_color then st.color_index + 1 else st.color_index
    let idx1 := if st.active_messages ≠ [] then
        (st.active_index + 1) % st.active_messages.length
      else 0
    ({ st with played_cache := displayCache st.played_cache mid,
               message_color_map := cmap1,
               color_index := cidx1, active_index := idx1 },
     displayEvents st.played_cache mid body)

/-- One full iteration of the `while True` loop of `run` (main.py lines
401-477): snapshot the shared state, apply any feed update, then render. -/
def loopIter (st : LoopState) (snap : Snapshot) : LoopState × List Event :=
  renderPhase (applyFeedUpdate st snap) snap

/-- Run the render loop over a sequence of observed snapshots, collecting
the emitted events. -/
def runLoop : LoopState → List Snapshot → LoopState × List Event
  | st, [] => (st, [])
  | st, snap :: rest =>
    let r1 := loopIter st snap
    let r2 := runLoop r1.1 rest
    (r2.1, r1.2 ++ r2.2)

/-- The initial render loop state (main.py lines 394-399). -/
def initialLoopState : LoopState :=
  { active_messages := [], active_index := 0, played_cache := [],
    last_applied_update := 0, message_color_map := [], color_index := 0 }

example : rebuild_active_messages [msgA, msgB, msgC] [msgD, msgB, msgA] =
    [msgA, msgB, msgD] := by decide

example : rebuild_active_messages [msgA, msgB] [] = [] := by decide

example : rebuild_active_messages [] [msgA, msgB] = [msgA, msgB] := by decide

example : rebuild_active_messages [msgA, msgA] [msgA] = [msgA] := by decide

example : rebuild_active_messages [] [msgA, ⟨some "a", none, "other"⟩] = [msgA] := by
  decide

example : rebuild_active_messages [] [⟨none, none, "  "⟩, msgB] = [msgB] := by decide

theorem mem_cleanFetched {F : List Msg} {seen : List String} {m : Msg}
    (h : m ∈ cleanFetched F seen) :
    isGoodMsg m = true ∧ m ∈ F ∧ get_message_id m ∉ seen := by
  induction F generalizing seen with
  | nil => simp [cleanFetched] at h
  | cons x xs ih =>
    simp only [cleanFetched] at h
    split at h
    · rcases ih h with ⟨hg, hm, hs⟩
      exact ⟨hg, List.mem_cons_of_mem _ hm, hs⟩
    · split at h
      · rcases ih h with ⟨hg, hm, hs⟩
        exact ⟨hg, List.mem_cons_of_mem _ hm, hs⟩
      · split at h
        · rcases ih h with ⟨hg, hm, hs⟩
          exact ⟨hg, List.mem_cons_of_mem _ hm, hs⟩
        · rcases List.mem_cons.1 h with rfl | hm
          · rename_i hbody hid hseen
            refine ⟨by simp [isGoodMsg, hbody, hid], List.mem_cons_self _ _, hseen⟩
          · rcases ih hm with ⟨hg, hmm, hs⟩
            exact ⟨hg, List.mem_cons_of_mem _ hmm,
              fun hc => hs (List.mem_cons_of_mem _ hc)⟩

theorem cleanFetched_ids_nodup (F : List Msg) (seen : List String) :
    ((cleanFetched F seen).map get_message_id).Nodup := by
  induction F generalizing seen with
  | nil => simp [cleanFetched]
  | cons x xs ih =>
    simp only [cleanFetched]
    split
    · exact ih seen
    · split
      · exact ih seen
      · split
        · exact ih seen
        · simp only [List.map_cons, List.nodup_cons]
          refine ⟨fun hmem => ?_, ih _⟩
          obtain ⟨m, hm, hid⟩ := List.mem_map.1 hmem
          exact (mem_cleanFetched hm).2.2 (by rw [hid]; exact List.mem_cons_self _ _)

theorem cleanFetched_find_first {F : List Msg} {seen : List String} {m : Msg}
    (h : m ∈ cleanFetched F seen) :
    (F.filter isGoodMsg).find? (fun x => decide (get_message_id x = get_message_id m)) =
      some m := by
  induction F generalizing seen with
  | nil => simp [cleanFetched] at h
  | cons x xs ih =>
    simp only [cleanFetched] at h
    by_cases hb : pyStrip x.body = ""
    · rw [if_pos hb] at h
      rw [List.filter_cons_of_neg (by simp [isGoodMsg, hb])]
      exact ih h
    · rw [if_neg hb] at h
      by_cases hi : get_message_id x = ""
      · rw [if_pos hi] at h
        rw [List.filter_cons_of_neg (by simp [isGoodMsg, hi])]
        exact ih h
      · rw [if_neg hi] at h
        rw [List.filter_cons_of_pos (by simp [isGoodMsg, hb, hi])]
        by_cases hs : get_message_id x ∈ seen
        · rw [if_pos hs] at h
          have hne : ¬ get_message_id x = get_message_id m := fun he =>
            (mem_cleanFetched h).2.2 (he ▸ hs)
          rw [List.find?_cons_of_neg _ (by simpa using hne)]
          exact ih h
        · rw [if_neg hs] at h
          rcases List.mem_cons.1 h with rfl | hm
          · rw [List.find?_cons_of_pos _ (by simp)]
          · have hnm : get_message_id m ∉ get_message_id x :: seen :=
              (mem_cleanFetched hm).2.2
            have hne : ¬ get_message_id x = get_message_id m := fun he =>
              hnm (by rw [← he]; exact List.mem_cons_self _ _)
            rw [List.find?_cons_of_neg _ (by simpa using hne)]
            exact ih hm

theorem id_to_msg_lookup_mem {c : List Msg} {oid : String} {f : Msg}
    (h : id_to_msg_lookup c oid = some f) :
    f ∈ c ∧ get_message_id f = oid := by
  unfold id_to_msg_lookup at h
  refine ⟨List.mem_reverse.1 (List.mem_of_find?_eq_some h), ?_⟩
  simpa using List.find?_some h

theorem id_to_msg_lookup_isSome_iff {c : List Msg} {oid : String} :
    (id_to_msg_lookup c oid).isSome ↔ oid ∈ c.map get_message_id := by
  unfold id_to_msg_lookup
  rw [List.find?_isSome]
  constructor
  · rintro ⟨x, hx, hp⟩
    exact List.mem_map.2 ⟨x, List.mem_reverse.1 hx, by simpa using hp⟩
  · rintro hmem
    obtain ⟨x, hx, hid⟩ := List.mem_map.1 hmem
    exact ⟨x, List.mem_reverse.2 hx, by simpa using hid⟩

theorem id_to_msg_lookup_self {c : List Msg} {m : Msg}
    (hnodup : (c.map get_message_id).Nodup) (hm : m ∈ c) :
    id_to_msg_lookup c (get_message_id m) = some m := by
  have hs : (id_to_msg_lookup c (get_message_id m)).isSome :=
    id_to_msg_lookup_isSome_iff.2 (List.mem_map_of_mem _ hm)
  obtain ⟨f, hf⟩ := Option.isSome_iff_exists.1 hs
  obtain ⟨hfc, hfid⟩ := id_to_msg_lookup_mem hf
  rw [hf, List.inj_on_of_nodup_map hnodup hfc hm hfid]

theorem preserveOut_mem {c prev : List Msg} {used : List String} {x : Msg}
    (h : x ∈ preserveOut c prev used) : x ∈ c := by
  induction prev generalizing used with
  | nil => simp [preserveOut] at h
  | cons p ps ih =>
    simp only [preserveOut] at h
    split at h
    · rename_i fresh hlk
      split at h
      · exact ih h
      · rcases List.mem_cons.1 h with rfl | hm
        · exact (id_to_msg_lookup_mem hlk).1
        · exact ih hm
    · exact ih h

theorem preserveOut_not_used {c prev : List Msg} {used : List String} {x : Msg}
    (h : x ∈ preserveOut c prev used) : get_message_id x ∉ used := by
  induction prev generalizing used with
  | nil => simp [preserveOut] at h
  | cons p ps ih =>
    simp only [preserveOut] at h
    split at h
    · rename_i fresh hlk
      split at h
      · exact ih h
      · rename_i hp
        rcases List.mem_cons.1 h with rfl | hm
        · rwa [(id_to_msg_lookup_mem hlk).2]
        · exact fun hc => ih hm (List.mem_cons_of_mem _ hc)
    · exact ih h

theorem preserveOut_ids_nodup (c prev : List Msg) (used : List String) :
    ((preserveOut c prev used).map get_message_id).Nodup := by
  induction prev generalizing used with
  | nil => simp [preserveOut]
  | cons p ps ih =>
    simp only [preserveOut]
    split
    · rename_i fresh hlk
      split
      · exact ih used
      · simp only [List.map_cons, List.nodup_cons]
        refine ⟨fun hmem => ?_, ih _⟩
        obtain ⟨m, hm, hid⟩ := List.mem_map.1 hmem
        have := preserveOut_not_used hm
        rw [hid, (id_to_msg_lookup_mem hlk).2] at this
        exact this (List.mem_cons_self _ _)
    · exact ih used

theorem preserveUsed_mem_iff {c prev : List Msg} {used : List String} {a : String} :
    a ∈ preserveUsed c prev used ↔
      a ∈ used ∨ a ∈ (preserveOut c prev used).map get_message_id := by
  induction prev generalizing used with
  | nil => simp [preserveUsed, preserveOut]
  | cons p ps ih =>
    simp only [preserveUsed, preserveOut]
    split
    · rename_i fresh hlk
      split
      · exact ih.trans (by rfl)
      · rw [ih]
        simp only [List.mem_cons, List.map_cons, (id_to_msg_lookup_mem hlk).2]
        tauto
    · exact ih.trans (by rfl)

theorem preserveOut_eq_filterMap {c prev : List Msg} {used : List String}
    (hdisj : ∀ p ∈ prev, get_message_id p ∉ used)
    (hnodup : (prev.map get_message_id).Nodup) :
    preserveOut c prev used =
      prev.filterMap (fun p => id_to_msg_lookup c (get_message_id p)) := by
  induction prev generalizing used with
  | nil => simp [preserveOut]
  | cons p ps ih =>
    simp only [List.map_cons, List.nodup_cons] at hnodup
    simp only [preserveOut, List.filterMap_cons]
    split
    · rename_i fresh hlk
      rw [hlk, if_neg (hdisj p (List.mem_cons_self _ _))]
      congr 1
      refine ih (fun q hq => ?_) hnodup.2
      simp only [List.mem_cons]
      rintro (he | hu)
      · exact hnodup.1 (he ▸ List.mem_map_of_mem _ hq)
      · exact hdisj q (List.mem_cons_of_mem _ hq) hu
    · rename_i hlk
      rw [hlk]
      exact ih (fun q hq => hdisj q (List.mem_cons_of_mem _ hq)) hnodup.2

theorem appendNew_mem {c : List Msg} {used : List String} {x : Msg}
    (h : x ∈ appendNew c used) : x ∈ c ∧ get_message_id x ∉ used := by
  induction c generalizing used with
  | nil => simp [appendNew] at h
  | cons m ms ih =>
    simp only [appendNew] at h
    split at h
    · rcases ih h with ⟨hm, hu⟩
      exact ⟨List.mem_cons_of_mem _ hm, hu⟩
    · rcases List.mem_cons.1 h with rfl | hm
      · rename_i hu
        exact ⟨List.mem_cons_self _ _, hu⟩
      · rcases ih hm with ⟨hmm, hu⟩
        exact ⟨List.mem_cons_of_mem _ hmm, fun hc => hu (List.mem_cons_of_mem _ hc)⟩

theorem appendNew_ids_nodup (c : List Msg) (used : List String) :
    ((appendNew c used).map get_message_id).Nodup := by
  induction c generalizing used with
  | nil => simp [appendNew]
  | cons m ms ih =>
    simp only [appendNew]
    split
    · exact ih used
    · simp only [List.map_cons, List.nodup_cons]
      refine ⟨fun hmem => ?_, ih _⟩
      obtain ⟨x, hx, hid⟩ := List.mem_map.1 hmem
      exact (appendNew_mem hx).2 (by rw [hid]; exact List.mem_cons_self _ _)

theorem appendNew_congr {c : List Msg} {u v : List String}
    (h : ∀ x ∈ c, (get_message_id x ∈ u ↔ get_message_id x ∈ v)) :
    appendNew c u = appendNew c v := by
  induction c generalizing u v with
  | nil => simp [appendNew]
  | cons m ms ih =>
    have hm := h m (List.mem_cons_self _ _)
    simp only [appendNew]
    by_cases hu : get_message_id m ∈ u
    · rw [if_pos hu, if_pos (hm.1 hu)]
      exact ih fun x hx => h x (List.mem_cons_of_mem _ hx)
    · rw [if_neg hu, if_neg (fun hv => hu (hm.2 hv))]
      congr 1
      refine ih fun x hx => ?_
      simp only [List.mem_cons]
      rw [h x (List.mem_cons_of_mem _ hx)]

theorem appendNew_eq_filter {c : List Msg} {used : List String}
    (hnodup : (c.map get_message_id).Nodup) :
    appendNew c used = c.filter (fun m => decide (get_message_id m ∉ used)) := by
  induction c generalizing used with
  | nil => simp [appendNew]
  | cons m ms ih =>
    simp only [List.map_cons, List.nodup_cons] at hnodup
    simp only [appendNew, List.filter_cons]
    by_cases hu : get_message_id m ∈ used
    · rw [if_pos hu, if_neg (by simp [hu])]
      exact ih hnodup.2
    · rw [if_neg hu, if_pos (by simp [hu])]
      congr 1
      have hcg : appendNew ms (get_message_id m :: used) = appendNew ms used := by
        refine appendNew_congr fun x hx => ?_
        simp only [List.mem_cons]
        have hne : ¬ get_message_id x = get_message_id m := fun he =>
          hnodup.1 (he ▸ List.mem_map_of_mem _ hx)
        tauto
      rw [hcg, ih hnodup.2]

theorem appendNew_nil_of {c : List Msg} {used : List String}
    (h : ∀ m ∈ c, get_message_id m ∈ used) : appendNew c used = [] := by
  induction c generalizing used with
  | nil => simp [appendNew]
  | cons m ms ih =>
    simp only [appendNew, if_pos (h m (List.mem_cons_self _ _))]
    exact ih fun x hx => h x (List.mem_cons_of_mem _ hx)

theorem appendNew_ids_cover {c : List Msg} {used : List String} {a : String}
    (h : a ∈ c.map get_message_id) :
    a ∈ used ∨ a ∈ (appendNew c used).map get_message_id := by
  induction c generalizing used with
  | nil => simp at h
  | cons m ms ih =>
    simp only [List.map_cons, List.mem_cons] at h
    simp only [appendNew]
    split
    · rename_i hu
      rcases h with rfl | hm
      · exact Or.inl hu
      · exact ih hm
    · rename_i hu
      rcases h with rfl | hm
      · exact Or.inr (by simp)
      · rcases @ih (get_message_id m :: used) hm with hl | hr
        · rcases List.mem_cons.1 hl with rfl | hl2
          · exact Or.inr (by simp)
          · exact Or.inl hl2
        · exact Or.inr (by simp [hr])

theorem rebuild_mem {prev F : List Msg} {x : Msg}
    (h : x ∈ rebuild_active_messages prev F) : x ∈ cleanFetched F [] := by
  simp only [rebuild_active_messages, List.mem_append] at h
  rcases h with h | h
  · exact preserveOut_mem h
  · exact (appendNew_mem h).1

theorem rebuild_ids_nodup (prev F : List Msg) :
    ((rebuild_active_messages prev F).map get_message_id).Nodup := by
  simp only [rebuild_active_messages, List.map_append]
  refine List.Nodup.append (preserveOut_ids_nodup _ _ _) (appendNew_ids_nodup _ _) ?_
  intro a ha hb
  obtain ⟨x, hx, rfl⟩ := List.mem_map.1 hb
  exact (appendNew_mem hx).2 (preserveUsed_mem_iff.2 (Or.inr ha))

theorem rebuild_ids_cover {prev F : List Msg} {a : String}
    (h : a ∈ (cleanFetched F []).map get_message_id) :
    a ∈ (rebuild_active_messages prev F).map get_message_id := by
  simp only [rebuild_active_messages, List.map_append, List.mem_append]
  rcases @appendNew_ids_cover (cleanFetched F [])
      (preserveUsed (cleanFetched F []) prev []) a h with hu | hr
  · rcases preserveUsed_mem_iff.1 hu with h0 | ho
    · simp at h0
    · exact Or.inl ho
  · exact Or.inr hr

theorem rebuild_decomp {prev F : List Msg}
    (hnodup : (prev.map get_message_id).Nodup) :
    rebuild_active_messages prev F =
      prev.filterMap
        (fun p => id_to_msg_lookup (cleanFetched F []) (get_message_id p)) ++
      (cleanFetched F []).filter
        (fun m => decide (get_message_id m ∉ prev.map get_message_id)) := by
  simp only [rebuild_active_messages]
  congr 1
  · exact preserveOut_eq_filterMap (by simp) hnodup
  · rw [appendNew_eq_filter (cleanFetched_ids_nodup F [])]
    refine List.filter_congr fun m hm => ?_
    have hmc : get_message_id m ∈ (cleanFetched F []).map get_message_id :=
      List.mem_map_of_mem _ hm
    have hiff : get_message_id m ∈ preserveUsed (cleanFetched F []) prev [] ↔
        get_message_id m ∈ prev.map get_message_id := by
      rw [preserveUsed_mem_iff]
      simp only [List.not_mem_nil, false_or]
      rw [preserveOut_eq_filterMap (by simp) hnodup]
      constructor
      · rintro hmem
        obtain ⟨x, hx, hid⟩ := List.mem_map.1 hmem
        obtain ⟨p, hp, hlk⟩ := List.mem_filterMap.1 hx
        have hxp := (id_to_msg_lookup_mem hlk).2
        rw [← hid, hxp]
        exact List.mem_map_of_mem _ hp
      · rintro hmem
        obtain ⟨p, hp, hid⟩ := List.mem_map.1 hmem
        have hs : (id_to_msg_lookup (cleanFetched F []) (get_message_id p)).isSome :=
          id_to_msg_lookup_isSome_iff.2 (by rw [hid]; exact hmc)
        obtain ⟨f, hf⟩ := Option.isSome_iff_exists.1 hs
        refine List.mem_map.2 ⟨f, List.mem_filterMap.2 ⟨p, hp, hf⟩, ?_⟩
        rw [(id_to_msg_lookup_mem hf).2, hid]
    simp only [decide_eq_decide]
    rw [hiff]

theorem filterMap_eq_self_of {α : Type} {f : α → Option α} {l : List α}
    (h : ∀ x ∈ l, f x = some x) : l.filterMap f = l := by
  induction l with
  | nil => simp
  | cons x xs ih =>
    rw [List.filterMap_cons_some (h x (List.mem_cons_self _ _)),
      ih fun y hy => h y (List.mem_cons_of_mem _ hy)]

theorem filterMap_eq_filter_of {α : Type} {f : α → Option α} {q : α → Bool}
    {l : List α} (h : ∀ x ∈ l, f x = if q x then some x else none) :
    l.filterMap f = l.filter q := by
  induction l with
  | nil => simp
  | cons x xs ih =>
    have hx := h x (List.mem_cons_self _ _)
    have ih2 := ih fun y hy => h y (List.mem_cons_of_mem _ hy)
    by_cases hq : q x
    · rw [List.filterMap_cons_some (by rw [hx, if_pos hq]),
        List.filter_cons_of_pos hq, ih2]
    · rw [List.filterMap_cons_none (by rw [hx, if_neg hq]),
        List.filter_cons_of_neg hq, ih2]

theorem preserveOut_nil (prev : List Msg) (used : List String) :
    preserveOut [] prev used = [] := by
  induction prev generalizing used with
  | nil => simp [preserveOut]
  | cons p ps ih =>
    simp only [preserveOut, id_to_msg_lookup, List.reverse_nil, List.find?_nil]
    exact ih used

theorem rebuild_empty_fetched (prev : List Msg) :
    rebuild_active_messages prev [] = [] := by
  simp only [rebuild_active_messages, cleanFetched, preserveOut_nil, appendNew,
    List.nil_append]

theorem rebuild_fixed {prev F : List Msg}
    (hc : ∀ x ∈ prev, x ∈ cleanFetched F [])
    (hnodup : (prev.map get_message_id).Nodup)
    (hcov : ∀ a ∈ (cleanFetched F []).map get_message_id,
      a ∈ prev.map get_message_id) :
    rebuild_active_messages prev F = prev := by
  rw [rebuild_decomp hnodup]
  have h1 : prev.filterMap
      (fun p => id_to_msg_lookup (cleanFetched F []) (get_message_id p)) = prev :=
    filterMap_eq_self_of fun p hp =>
      id_to_msg_lookup_self (cleanFetched_ids_nodup F []) (hc p hp)
  have h2 : (cleanFetched F []).filter
      (fun m => decide (get_message_id m ∉ prev.map get_message_id)) = [] := by
    rw [List.filter_eq_nil_iff]
    intro m hm
    simp only [decide_eq_true_eq, not_not]
    exact hcov _ (List.mem_map_of_mem _ hm)
  rw [h1, h2, List.append_nil]

/-- C1 (as frozen) fails on the code: with the duplicate-id previous queue
`[E, E]` and fetched `[E]` (whose normalized ids are a subset of the
queue id set with unchanged bodies), the result keeps only the first copy,
while filtering the previous queue to that id subset keeps both. -/
theorem reconcile_filter_counterexample :
    rebuild_active_messages [msgE, msgE] [msgE] = [msgE] ∧
    ([msgE, msgE].filter (fun p => decide (get_message_id p ∈
        (cleanFetched [msgE] []).map get_message_id))) = [msgE, msgE] := by
  decide

/-- C1 (amended): for every previousQueue whose ids are pairwise distinct
(the ActiveQueue invariant) and every fetched list whose normalized
entries all occur unchanged in previousQueue, `rebuild_active_messages`
returns previousQueue filtered to exactly the normalized fetched ids, in
the same relative order. -/
theorem reconcile_subset_is_filter (prev F : List Msg)
    (hnodup : (prev.map get_message_id).Nodup)
    (hsub : ∀ f ∈ cleanFetched F [], f ∈ prev) :
    rebuild_active_messages prev F =
      prev.filter (fun p => decide (get_message_id p ∈
        (cleanFetched F []).map get_message_id)) := by
  rw [rebuild_decomp hnodup]
  have h2 : (cleanFetched F []).filter
      (fun m => decide (get_message_id m ∉ prev.map get_message_id)) = [] := by
    rw [List.filter_eq_nil_iff]
    intro m hm
    simp only [decide_eq_true_eq, not_not]
    exact List.mem_map_of_mem _ (hsub m hm)
  rw [h2, List.append_nil]
  refine filterMap_eq_filter_of fun p hp => ?_
  by_cases hq : get_message_id p ∈ (cleanFetched F []).map get_message_id
  · rw [if_pos (by simpa using hq)]
    have hs : (id_to_msg_lookup (cleanFetched F []) (get_message_id p)).isSome :=
      id_to_msg_lookup_isSome_iff.2 hq
    obtain ⟨f, hf⟩ := Option.isSome_iff_exists.1 hs
    rw [hf]
    obtain ⟨hfc, hfid⟩ := id_to_msg_lookup_mem hf
    rw [List.inj_on_of_nodup_map hnodup (hsub f hfc) hp hfid]
  · rw [if_neg (by simpa using hq)]
    exact Option.not_isSome_iff_eq_none.1 fun hs =>
      hq (id_to_msg_lookup_isSome_iff.1 hs)

/-- Witness for C1 at previousQueue `[A, B]`, fetched `[B]`. -/
theorem reconcile_subset_is_filter_witness :
    rebuild_active_messages [msgA, msgB] [msgB] =
      [msgA, msgB].filter (fun p => decide (get_message_id p ∈
        (cleanFetched [msgB] []).map get_message_id)) :=
  reconcile_subset_is_filter [msgA, msgB] [msgB] (by decide) (by decide)

/-- C2 (as frozen) fails on the code: with the duplicate-id previous queue
`[F, F]` and fetched `[F]`, the result keeps one entry, while the claimed
shape (previousQueue entries with ids still fetched, then new arrivals)
keeps both copies. -/
theorem reconcile_shape_counterexample :
    rebuild_active_messages [msgF, msgF] [msgF] = [msgF] ∧
    ([msgF, msgF].filterMap
        (fun p => id_to_msg_lookup (cleanFetched [msgF] []) (get_message_id p)) ++
      (cleanFetched [msgF] []).filter
        (fun m => decide (get_message_id m ∉ [msgF, msgF].map get_message_id))) =
      [msgF, msgF] := by
  decide

/-- C2 (amended): for every previousQueue with pairwise-distinct ids, the
result is the previousQueue entries whose ids are still in the normalized
fetched list, in previousQueue order and taken in their fresh version,
followed by the newly arrived normalized entries in feed order; moreover
the two quoted examples hold: `[A,B,C]` against `[D,B,A]` gives
`[A,B,D]`, and an empty fetched list empties any queue. -/
theorem reconcile_preserved_then_new (prev F : List Msg)
    (hnodup : (prev.map get_message_id).Nodup) :
    rebuild_active_messages prev F =
      prev.filterMap
        (fun p => id_to_msg_lookup (cleanFetched F []) (get_message_id p)) ++
      (cleanFetched F []).filter
        (fun m => decide (get_message_id m ∉ prev.map get_message_id)) ∧
    rebuild_active_messages [msgA, msgB, msgC] [msgD, msgB, msgA] =
      [msgA, msgB, msgD] ∧
    rebuild_active_messages prev [] = [] :=
  ⟨rebuild_decomp hnodup, by decide, rebuild_empty_fetched prev⟩

/-- Witness for C2 at previousQueue `[A]`, fetched `[B, A]`. -/
theorem reconcile_preserved_then_new_witness :
    rebuild_active_messages [msgA] [msgB, msgA] =
      [msgA].filterMap
        (fun p => id_to_msg_lookup (cleanFetched [msgB, msgA] []) (get_message_id p)) ++
      (cleanFetched [msgB, msgA] []).filter
        (fun m => decide (get_message_id m ∉ [msgA].map get_message_id)) :=
  (reconcile_preserved_then_new [msgA] [msgB, msgA] (by decide)).1

/-- C3: every entry of a rebuilt queue has a non-empty trimmed body and a
non-empty derived id and is the first normalized fetched entry carrying
its id (so of two fetched entries sharing an id only the first survives),
and the ids of the result are pairwise distinct. -/
theorem reconcile_entries_valid (prev F : List Msg) :
    (∀ m ∈ rebuild_active_messages prev F,
        pyStrip m.body ≠ "" ∧ get_message_id m ≠ "" ∧
        (F.filter isGoodMsg).find?
          (fun x => decide (get_message_id x = get_message_id m)) = some m) ∧
    ((rebuild_active_messages prev F).map get_message_id).Nodup := by
  refine ⟨fun m hm => ?_, rebuild_ids_nodup prev F⟩
  have hc := rebuild_mem hm
  have hg := (mem_cleanFetched hc).1
  simp only [isGoodMsg, Bool.and_eq_true, decide_eq_true_eq] at hg
  exact ⟨hg.1, hg.2, cleanFetched_find_first hc⟩

/-- Witness for C3: the entry `A` of `rebuild_active_messages [] [A, A2]`
(where `A2` duplicates the id of `A`). -/
theorem reconcile_entries_valid_witness :
    pyStrip msgA.body ≠ "" ∧ get_message_id msgA ≠ "" ∧
    (([msgA, Msg.mk (some "a") none "again"].filter isGoodMsg).find?
      (fun x => decide (get_message_id x = get_message_id msgA))) = some msgA :=
  (reconcile_entries_valid [] [msgA, Msg.mk (some "a") none "again"]).1
    msgA (by decide)

/-- C4: reconciliation is idempotent in its first argument. -/
theorem reconcile_idempotent (Q F : List Msg) :
    rebuild_active_messages (rebuild_active_messages Q F) F =
      rebuild_active_messages Q F :=
  rebuild_fixed (fun _ hx => rebuild_mem hx) (rebuild_ids_nodup Q F)
    (fun _ ha => rebuild_ids_cover ha)

/-- C5: `fetch_live_messages` is a total function of the HTTP outcome (so
no exception reaches its caller), and on every raised error — connection
failure, timeout, bad status, or malformed body — it returns exactly the
empty, unmuted snapshot. -/
theorem fetch_error_empty_unmuted (e : String) :
    fetch_live_messages (.failed e) =
      { messages := [], screen_muted := false } := rfl

/-- C8 (as frozen) fails on the code: the poll loop sleeps the full
interval only after the fetch returns, so with poll interval 5 and a
first fetch lasting 3 time units the second fetch starts 8 units after
the first, not 5. -/
theorem poller_cadence_counterexample :
    pollerStartTimes 5 0 [3, 2] = [0, 8] ∧ (8 : Nat) - 0 ≠ 5 := by decide

/-- C8 (amended): the time between consecutive fetch starts equals the
duration of the earlier fetch plus the poll interval — the cadence is
additive with fetch duration, not fixed at the interval. -/
theorem poller_cadence_additive (interval t0 : Nat) (durs : List Nat) (i : Nat)
    (h : i + 1 < durs.length) :
    (pollerStartTimes interval t0 durs).getD (i + 1) 0 =
      (pollerStartTimes interval t0 durs).getD i 0 + durs.getD i 0 + interval := by
  induction durs generalizing t0 i with
  | nil => simp at h
  | cons d ds ih =>
    cases i with
    | zero =>
      cases ds with
      | nil => simp at h
      | cons e es => simp [pollerStartTimes]
    | succ j =>
      simp only [pollerStartTimes, List.getD_cons_succ]
      exact ih _ _ (by simpa using h)

/-- Witness for C8 at interval 5 and fetch durations `[3, 2]`. -/
theorem poller_cadence_additive_witness :
    (pollerStartTimes 5 0 [3, 2]).getD 1 0 =
      (pollerStartTimes 5 0 [3, 2]).getD 0 0 + ([3, 2] : List Nat).getD 0 0 + 5 :=
  poller_cadence_additive 5 0 [3, 2] 0 (by decide)

/-- C9 (as frozen) fails on the code: publication is three separate key
assignments, so a read landing after the first of them observes the new
message list together with the mute flag and timestamp of the previous poll —
a snapshot that is neither the old one nor the new one. -/
theorem publish_torn_read_counterexample :
    readAfter { messages := [msgA], screen_muted := true, last_update := 1 }
        { messages := [], screen_muted := false } 2 1 =
      { messages := [], screen_muted := true, last_update := 1 } ∧
    ({ messages := [], screen_muted := true, last_update := 1 } : Snapshot) ≠
      { messages := [msgA], screen_muted := true, last_update := 1 } ∧
    ({ messages := [], screen_muted := true, last_update := 1 } : Snapshot) ≠
      { messages := [], screen_muted := false, last_update := 2 } := by decide

/-- C9 (amended): publishing replaces the three shared fields one key at a
time, in source order; each field value is swapped wholesale and a read
after all three writes sees exactly the new snapshot, but a read between
the first and second write sees the new message list combined with the
previous mute flag and timestamp. -/
theorem publish_field_by_field (s : Snapshot) (d : FeedResult) (now : Nat) :
    readAfter s d now 3 =
      { messages := d.messages, screen_muted := d.screen_muted,
        last_update := now } ∧
    readAfter s d now 1 =
      { messages := d.messages, screen_muted := s.screen_muted,
        last_update := s.last_update } :=
  ⟨rfl, rfl⟩

theorem applyFeedUpdate_played_cache (st : LoopState) (snap : Snapshot) :
    (applyFeedUpdate st snap).played_cache = st.played_cache := by
  simp only [applyFeedUpdate]
  split <;> rfl

/-- C6: an iteration that observes the mute flag set emits exactly one
blank-and-swap action — no message is selected, no notification is
dispatched, no scroll starts — and leaves the played cache, the cursor,
and the queue exactly as the feed-update phase left them. -/
theorem muted_iteration_blanks (st : LoopState) (snap : Snapshot)
    (h : snap.screen_muted = true) :
    (loopIter st snap).2 = [Event.clearSwap] ∧
    (loopIter st snap).1.played_cache = st.played_cache ∧
    (loopIter st snap).1.active_index = (applyFeedUpdate st snap).active_index ∧
    (loopIter st snap).1.active_messages =
      (applyFeedUpdate st snap).active_messages := by
  refine ⟨?_, ?_, ?_, ?_⟩ <;>
    simp [loopIter, renderPhase, h, applyFeedUpdate_played_cache]

/-- Witness for C6: a muted snapshot against a non-empty fetched list. -/
theorem muted_iteration_blanks_witness :
    (loopIter initialLoopState
        { messages := [msgA], screen_muted := true, last_update := 1 }).2 =
      [Event.clearSwap] ∧
    (loopIter initialLoopState
        { messages := [msgA], screen_muted := true, last_update := 1 }).1.played_cache =
      initialLoopState.played_cache ∧
    (loopIter initialLoopState
        { messages := [msgA], screen_muted := true, last_update := 1 }).1.active_index =
      (applyFeedUpdate initialLoopState
        { messages := [msgA], screen_muted := true, last_update := 1 }).active_index ∧
    (loopIter initialLoopState
        { messages := [msgA], screen_muted := true, last_update := 1 }).1.active_messages =
      (applyFeedUpdate initialLoopState
        { messages := [msgA], screen_muted := true, last_update := 1 }).active_messages :=
  muted_iteration_blanks initialLoopState
    { messages := [msgA], screen_muted := true, last_update := 1 } rfl

/-- C10: an iteration that observes a fresh `last_update` rebuilds the
queue, resets the cursor to 0 exactly when it is out of range of the
rebuilt queue, and records the timestamp as applied — all in the
feed-update phase, which runs before the mute check, so a muted iteration
still ends with the rebuilt queue and the applied timestamp while
emitting only the blank-and-swap. -/
theorem feed_update_before_mute (st : LoopState) (snap : Snapshot)
    (h : snap.last_update ≠ st.last_applied_update) :
    (applyFeedUpdate st snap).active_messages =
      rebuild_active_messages st.active_messages snap.messages ∧
    (applyFeedUpdate st snap).last_applied_update = snap.last_update ∧
    (applyFeedUpdate st snap).active_index =
      (if st.active_index <
          (rebuild_active_messages st.active_messages snap.messages).length
        then st.active_index else 0) ∧
    (snap.screen_muted = true →
      (loopIter st snap).1.active_messages =
        rebuild_active_messages st.active_messages snap.messages ∧
      (loopIter st snap).1.last_applied_update = snap.last_update ∧
      (loopIter st snap).2 = [Event.clearSwap]) := by
  have hidx : (applyFeedUpdate st snap).active_index =
      (if st.active_index <
          (rebuild_active_messages st.active_messages snap.messages).length
        then st.active_index else 0) := by
    simp only [applyFeedUpdate, if_pos h]
    by_cases hnil : rebuild_active_messages st.active_messages snap.messages = []
    · rw [if_neg (by simp [hnil]), hnil]
      simp
    · rw [if_pos hnil]
      by_cases hge : st.active_index ≥
          (rebuild_active_messages st.active_messages snap.messages).length
      · rw [if_pos hge, if_neg (Nat.not_lt.2 hge)]
      · rw [if_neg hge, if_pos (Nat.lt_of_not_le hge)]
  refine ⟨by simp [applyFeedUpdate, h], by simp [applyFeedUpdate, h], hidx,
    fun hm => ?_⟩
  refine ⟨?_, ?_, ?_⟩ <;> simp [loopIter, renderPhase, hm, applyFeedUpdate, h]

/-- Witness for C10: a fresh timestamp under mute, from the initial
state. -/
theorem feed_update_before_mute_witness :
    (applyFeedUpdate initialLoopState
        { messages := [msgA], screen_muted := true, last_update := 5 }).active_messages =
      rebuild_active_messages initialLoopState.active_messages [msgA] ∧
    (applyFeedUpdate initialLoopState
        { messages := [msgA], screen_muted := true, last_update := 5 }).last_applied_update = 5 ∧
    (applyFeedUpdate initialLoopState
        { messages := [msgA], screen_muted := true, last_update := 5 }).active_index =
      (if initialLoopState.active_index <
          (rebuild_active_messages initialLoopState.active_messages [msgA]).length
        then initialLoopState.active_index else 0) ∧
    (true = true →
      (loopIter initialLoopState
          { messages := [msgA], screen_muted := true, last_update := 5 }).1.active_messages =
        rebuild_active_messages initialLoopState.active_messages [msgA] ∧
      (loopIter initialLoopState
          { messages := [msgA], screen_muted := true, last_update := 5 }).1.last_applied_update = 5 ∧
      (loopIter initialLoopState
          { messages := [msgA], screen_muted := true, last_update := 5 }).2 =
        [Event.clearSwap]) :=
  feed_update_before_mute initialLoopState
    { messages := [msgA], screen_muted := true, last_update := 5 } (by decide)

theorem displayFacts (cache : List String) (mid body i : String) :
    (Event.markPlayed i ∈ displayEvents cache mid body ↔
      i ∈ displayCache cache mid ∧ i ∉ cache) ∧
    (∀ j ∈ cache, j ∈ displayCache cache mid) ∧
    ((displayEvents cache mid body).count (Event.markPlayed i) ≤ 1) ∧
    (Event.markPlayed i ∈ displayEvents cache mid body →
      Event.selected i ∈ displayEvents cache mid body ∧ i ≠ "") ∧
    (Event.selected i ∈ displayEvents cache mid body → i ∉ cache → i ≠ "" →
      Event.markPlayed i ∈ displayEvents cache mid body) ∧
    (i ∈ displayCache cache mid →
      i ∈ cache ∨ Event.markPlayed i ∈ displayEvents cache mid body) := by
  unfold displayEvents displayCache
  by_cases hn : mid ≠ "" ∧ mid ∉ cache
  · rw [if_pos hn, if_pos hn]
    by_cases hb : body ≠ "" <;> by_cases him : i = mid <;>
      simp [hb, him, hn.1, hn.2, List.count_cons, List.count_nil] <;> tauto
  · rw [if_neg hn, if_neg hn]
    by_cases hb : body ≠ "" <;> by_cases him : i = mid <;>
      simp [hb, him, hn, List.count_cons, List.count_nil] <;> tauto

theorem loopIter_played_facts (st : LoopState) (snap : Snapshot) (i : String) :
    (Event.markPlayed i ∈ (loopIter st snap).2 ↔
      i ∈ (loopIter st snap).1.played_cache ∧ i ∉ st.played_cache) ∧
    (∀ j ∈ st.played_cache, j ∈ (loopIter st snap).1.played_cache) ∧
    ((loopIter st snap).2.count (Event.markPlayed i) ≤ 1) ∧
    (Event.markPlayed i ∈ (loopIter st snap).2 →
      Event.selected i ∈ (loopIter st snap).2 ∧ i ≠ "") ∧
    (Event.selected i ∈ (loopIter st snap).2 → i ∉ st.played_cache → i ≠ "" →
      Event.markPlayed i ∈ (loopIter st snap).2) ∧
    (i ∈ (loopIter st snap).1.played_cache →
      i ∈ st.played_cache ∨ Event.markPlayed i ∈ (loopIter st snap).2) := by
  rw [loopIter, ← applyFeedUpdate_played_cache st snap]
  generalize applyFeedUpdate st snap = s1
  by_cases h1 : snap.screen_muted = true
  · simp [renderPhase, h1]
  · by_cases h2 : s1.active_messages = []
    · simp [renderPhase, h1, h2]
    · have he : (renderPhase s1 snap).2 =
          displayEvents s1.played_cache
            (get_message_id (s1.active_messages.getD s1.active_index
              ⟨none, none, ""⟩))
            (pyStrip (s1.active_messages.getD s1.active_index
              ⟨none, none, ""⟩).body) := by
        simp [renderPhase, h1, h2]
      have hc : (renderPhase s1 snap).1.played_cache =
          displayCache s1.played_cache
            (get_message_id (s1.active_messages.getD s1.active_index
              ⟨none, none, ""⟩)) := by
        simp [renderPhase, h1, h2]
      rw [he, hc]
      exact displayFacts s1.played_cache _ _ i

theorem runLoop_cache_mono (st : LoopState) (snaps : List Snapshot) :
    ∀ j ∈ st.played_cache, j ∈ (runLoop st snaps).1.played_cache := by
  induction snaps generalizing st with
  | nil => simp [runLoop]
  | cons snap rest ih =>
    intro j hj
    simp only [runLoop]
    exact ih _ _ ((loopIter_played_facts st snap j).2.1 j hj)

theorem runLoop_no_mark_of_cached {st : LoopState} {snaps : List Snapshot}
    {i : String} (h : i ∈ st.played_cache) :
    Event.markPlayed i ∉ (runLoop st snaps).2 ∧
    i ∈ (runLoop st snaps).1.played_cache := by
  induction snaps generalizing st with
  | nil => simpa [runLoop] using h
  | cons snap rest ih =>
    have hfacts := loopIter_played_facts st snap i
    have hmono := hfacts.2.1 i h
    have hrest := ih hmono
    simp only [runLoop, List.mem_append]
    exact ⟨fun hc => hc.elim (fun hm => (hfacts.1.1 hm).2 h) hrest.1, hrest.2⟩

theorem runLoop_mark_count {st : LoopState} {snaps : List Snapshot} {i : String}
    (h : i ∉ st.played_cache) :
    (runLoop st snaps).2.count (Event.markPlayed i) ≤ 1 := by
  induction snaps generalizing st with
  | nil => simp [runLoop]
  | cons snap rest ih =>
    simp only [runLoop, List.count_append]
    have hfacts := loopIter_played_facts st snap i
    by_cases hm : Event.markPlayed i ∈ (loopIter st snap).2
    · have hcache : i ∈ (loopIter st snap).1.played_cache := (hfacts.1.1 hm).1
      have hrest0 : (runLoop (loopIter st snap).1 rest).2.count
          (Event.markPlayed i) = 0 :=
        List.count_eq_zero.2 (runLoop_no_mark_of_cached hcache).1
      have hiter := hfacts.2.2.1
      omega
    · have h0 : (loopIter st snap).2.count (Event.markPlayed i) = 0 :=
        List.count_eq_zero.2 hm
      by_cases hc : i ∈ (loopIter st snap).1.played_cache
      · rcases hfacts.2.2.2.2.2 hc with hin | hmk
        · exact absurd hin h
        · exact absurd hmk hm
      · have := ih hc
        omega

theorem runLoop_mark_iff_selected {st : LoopState} {snaps : List Snapshot}
    {i : String} (hnc : i ∉ st.played_cache) (hne : i ≠ "") :
    (Event.markPlayed i ∈ (runLoop st snaps).2 ↔
      Event.selected i ∈ (runLoop st snaps).2) := by
  induction snaps generalizing st with
  | nil => simp [runLoop]
  | cons snap rest ih =>
    simp only [runLoop, List.mem_append]
    have hfacts := loopIter_played_facts st snap i
    constructor
    · rintro (hm | hm)
      · exact Or.inl (hfacts.2.2.2.1 hm).1
      · by_cases hc : i ∈ (loopIter st snap).1.played_cache
        · rcases hfacts.2.2.2.2.2 hc with hin | hmk
          · exact absurd hin hnc
          · exact Or.inl (hfacts.2.2.2.1 hmk).1
        · exact Or.inr ((ih hc).1 hm)
    · rintro (hs | hs)
      · exact Or.inl (hfacts.2.2.2.2.1 hs hnc hne)
      · by_cases hc : i ∈ (loopIter st snap).1.played_cache
        · rcases hfacts.2.2.2.2.2 hc with hin | hmk
          · exact absurd hin hnc
          · exact Or.inl hmk
        · exact Or.inr ((ih hc).2 hs)

/-- C7: over any run of the render loop from a state whose played cache
does not yet hold the (non-empty) id `i`, at most one played-notification
for `i` is ever dispatched, a notification for `i` occurs exactly when `i`
is at some point selected for display (the first such selection fires it
and caches `i`), and the played cache never shrinks. -/
theorem played_once (st0 : LoopState) (snaps : List Snapshot) (i : String)
    (hne : i ≠ "") (hnc : i ∉ st0.played_cache) :
    (runLoop st0 snaps).2.count (Event.markPlayed i) ≤ 1 ∧
    (Event.markPlayed i ∈ (runLoop st0 snaps).2 ↔
      Event.selected i ∈ (runLoop st0 snaps).2) ∧
    ∀ j ∈ st0.played_cache, j ∈ (runLoop st0 snaps).1.played_cache :=
  ⟨runLoop_mark_count hnc, runLoop_mark_iff_selected hnc hne,
    runLoop_cache_mono st0 snaps⟩

/-- Witness for C7: two iterations displaying the same message dispatch
one notification. -/
theorem played_once_witness :
    (runLoop initialLoopState
        [{ messages := [msgA], screen_muted := false, last_update := 1 },
         { messages := [msgA], screen_muted := false, last_update := 1 }]).2.count
      (Event.markPlayed "a") ≤ 1 ∧
    (Event.markPlayed "a" ∈ (runLoop initialLoopState
        [{ messages := [msgA], screen_muted := false, last_update := 1 },
         { messages := [msgA], screen_muted := false, last_update := 1 }]).2 ↔
      Event.selected "a" ∈ (runLoop initialLoopState
        [{ messages := [msgA], screen_muted := false, last_update := 1 },
         { messages := [msgA], screen_muted := false, last_update := 1 }]).2) ∧
    ∀ j ∈ initialLoopState.played_cache,
      j ∈ (runLoop initialLoopState
        [{ messages := [msgA], screen_muted := false, last_update := 1 },
         { messages := [msgA], screen_muted := false, last_update := 1 }]).1.played_cache :=
  played_once initialLoopState
    [{ messages := [msgA], screen_muted := false, last_update := 1 },
     { messages := [msgA], screen_muted := false, last_update := 1 }] "a"
    (by decide) (by decide)

end SmsLed
